import Mathlib

/-!
Shallow embedding of `preprocess/DataOperation.py` (PoPPy).

Timestamps, features and labels are modelled as rationals (the Python code
uses floats; the claims under study are structural, not about float
rounding).  Paths of the Python code that raise an exception are modelled by
`Option`-valued functions returning `none`.  The process-wide random draws
(`np.random.permutation`, `np.random.choice`) are modelled as explicit
oracle parameters: one permutation per operator call, and one chosen index
per target sequence for feature mode.
-/

/-- Python `round` (round half to even), as used by `round(x)` on floats. -/
def pyRound (q : ℚ) : ℤ :=
  if q - ⌊q⌋ < 1/2 then ⌊q⌋
  else if (1 : ℚ)/2 < q - ⌊q⌋ then ⌊q⌋ + 1
  else if ⌊q⌋ % 2 = 0 then ⌊q⌋ else ⌊q⌋ + 1

/-- Numpy integer indexing into an axis of length `len`: indices in
`[0, len)` are used as such, indices in `[-len, 0)` wrap around, and
anything else raises `IndexError` (modelled as `none`). -/
def npIdx (len : ℕ) (n : ℤ) : Option ℕ :=
  if 0 ≤ n then (if n < (len : ℤ) then some n.toNat else none)
  else (if -(len : ℤ) ≤ n then some ((len : ℤ) + n).toNat else none)

/-- One event sequence (`seq_i` in the source): aligned `times`/`events`
arrays, an optional static feature vector, the observation window and an
optional label. -/
structure EventSeq where
  times : List ℚ
  events : List ℕ
  seq_feature : Option (List ℚ)
  t_start : ℚ
  t_stop : ℚ
  label : Option ℚ
deriving DecidableEq

/-- A database of event sequences, with the bookkeeping dictionaries of the
source (`type2idx`, `idx2type`, `seq2idx`, `idx2seq`) modelled as
association lists with distinct keys, and optional per-type event features. -/
structure Database where
  event_features : Option (List (List ℚ))
  type2idx : List (String × ℕ)
  idx2type : List (ℕ × String)
  seq2idx : List (String × ℕ)
  idx2seq : List (ℕ × String)
  sequences : List EventSeq
deriving DecidableEq

/-- Python dictionary equality for the `type2idx` maps: the two association
lists agree on every key of either (order-insensitive, like `dict.__eq__`). -/
def dictEq (d1 d2 : List (String × ℕ)) : Bool :=
  (d1.map Prod.fst ++ d2.map Prod.fst).all
    (fun k => List.lookup k d1 == List.lookup k d2)

/-- Stitch `seq_j` to the end of `seq_i` (body of the per-`i` loop of
`stitching`, lines 90-103): `seq_j`'s times are shifted by
`- seq_j.t_start + seq_i.t_stop`, events are concatenated, the stop time
becomes `seq_i.t_stop + seq_j.t_stop - seq_j.t_start`, and the feature is
averaged when both are present (otherwise `seq_i`'s is kept). -/
def stitchSeq (si sj : EventSeq) : EventSeq where
  times := si.times ++ sj.times.map (fun t => t - sj.t_start + si.t_stop)
  events := si.events ++ sj.events
  seq_feature :=
    match si.seq_feature, sj.seq_feature with
    | some f, some g => some (List.zipWith (fun a b => (a + b)/2) f g)
    | _, _ => si.seq_feature
  t_start := si.t_start
  t_stop := si.t_stop + sj.t_stop - sj.t_start
  label := si.label

/-- Ordering of index/value pairs by value, used to model `np.argsort`. -/
def timeOrder (p q : ℕ × ℚ) : Prop := p.2 ≤ q.2

instance : DecidableRel timeOrder :=
  fun p q => inferInstanceAs (Decidable (p.2 ≤ q.2))

instance : IsTotal (ℕ × ℚ) timeOrder := ⟨fun p q => le_total p.2 q.2⟩

instance : IsTrans (ℕ × ℚ) timeOrder := ⟨fun _ _ _ h h2 => le_trans h h2⟩

/-- `np.argsort`: a list of positions that sorts `l` ascending (the source
does not rely on the tie-breaking order of `np.argsort`'s quicksort; this
model determinizes it with a stable sort over index/value pairs). -/
def npArgsort (l : List ℚ) : List ℕ :=
  (List.insertionSort timeOrder l.enum).map Prod.fst

/-- Numpy fancy indexing `l[idx]` for a list of in-range positions. -/
def npIndexList {α : Type} [Inhabited α] (l : List α) (idx : List ℕ) : List α :=
  idx.map (fun k => l.getD k default)

/-- Superpose `seq_j` onto `seq_i` (body of the per-`i` loop of
`superposing`, lines 221-238): times are concatenated without shift and
sorted, events are permuted by the same `argsort` order,
`t_start = min(seq_i.t_start, seq_j.t_stop)` and
`t_stop = max(seq_i.t_stop, seq_j.t_stop)` (the asymmetric comparison is the
source's), and the feature rule is the same as for stitching. -/
def superposeSeq (si sj : EventSeq) : EventSeq :=
  let ts := si.times ++ sj.times
  let es := si.events ++ sj.events
  let order := npArgsort ts
  { times := npIndexList ts order
    events := npIndexList es order
    seq_feature :=
      match si.seq_feature, sj.seq_feature with
      | some f, some g => some (List.zipWith (fun a b => (a + b)/2) f g)
      | _, _ => si.seq_feature
    t_start := min si.t_start sj.t_stop
    t_stop := max si.t_stop sj.t_stop
    label := si.label }

/-- Common skeleton of `stitching` and `superposing` (the two source
functions are line-for-line identical except for the per-sequence
combination step, passed here as `combine`).  `perm` is the permutation
drawn once per call by `np.random.permutation` (random mode); `picks i` is
the index drawn by `np.random.choice` for target `i` (feature mode).
`none` models a raised exception: `i % 0` (`ZeroDivisionError`) in random
mode and `np.random.choice(0, ...)` (`ValueError`) in feature mode, both
reachable only when `database1` has at least one sequence. -/
def composeDatabases (combine : EventSeq → EventSeq → EventSeq) (db1 db2 : Database)
    (method : Option String) (perm : List ℕ) (picks : ℕ → ℕ) :
    Option Database :=
  if dictEq db1.type2idx db2.type2idx then
    if method = none ∨ method = some "random" then
      (db1.sequences.enum.mapM (fun p =>
        if db2.sequences.length = 0 then none
        else
          (perm[p.1 % db2.sequences.length]?).bind (fun pj =>
            (db2.sequences[pj]?).bind (fun sj =>
              some (combine p.2 sj))))).map
        (fun seqs => { db1 with sequences := seqs })
    else if method = some "feature" then
      (db1.sequences.enum.mapM (fun p =>
        if db2.sequences.length = 0 then none
        else
          (db2.sequences[picks p.1]?).bind (fun sj =>
            some (combine p.2 sj)))).map
        (fun seqs => { db1 with sequences := seqs })
    else some db1
  else some db1

/-- `stitching(database1, database2, method)` with the random draws made
explicit. -/
def stitching (db1 db2 : Database) (method : Option String)
    (perm : List ℕ) (picks : ℕ → ℕ) : Option Database :=
  composeDatabases stitchSeq db1 db2 method perm picks

/-- `superposing(database1, database2, method)` with the random draws made
explicit. -/
def superposing (db1 db2 : Database) (method : Option String)
    (perm : List ℕ) (picks : ℕ → ℕ) : Option Database :=
  composeDatabases superposeSeq db1 db2 method perm picks

/-- Increment entry `c` of a row of the count matrix. -/
def incRow (row : List ℕ) (c : ℕ) : List ℕ := row.set c (row.getD c 0 + 1)

/-- Increment entry `(n, c)` of the count matrix (`events[n, c] += 1`). -/
def incMat (mat : List (List ℕ)) (n c : ℕ) : List (List ℕ) :=
  mat.set n (incRow (mat.getD n []) c)

/-- One step of the counting loop of `aggregating` (lines 352-355):
`n = int(round((times[k] - t_start)/dt))`, then `events[n, c] += 1` with
numpy index semantics on both axes. -/
def binEvent (tstart dt : ℚ) (numBins numTypes : ℕ)
    (mat : List (List ℕ)) (tk : ℚ) (ck : ℕ) : Option (List (List ℕ)) := do
  let n ← npIdx numBins (pyRound ((tk - tstart)/dt))
  let c ← npIdx numTypes (ck : ℤ)
  pure (incMat mat n c)

/-- An aggregated sequence: `times` holds the bin-end timestamps and
`events` the per-bin, per-type count matrix. -/
structure AggSeq where
  times : List ℚ
  events : List (List ℕ)
  seq_feature : Option (List ℚ)
  t_start : ℚ
  t_stop : ℚ
  label : Option ℚ
deriving DecidableEq

/-- Database of aggregated sequences. -/
structure AggDatabase where
  event_features : Option (List (List ℚ))
  type2idx : List (String × ℕ)
  idx2type : List (ℕ × String)
  seq2idx : List (String × ℕ)
  idx2seq : List (ℕ × String)
  sequences : List AggSeq
deriving DecidableEq

/-- Aggregation of one sequence (body of the per-`i` loop of `aggregating`,
lines 344-358): `num_bins = round((t_stop - t_start)/dt) + 1` bins ending at
`t_start + (n+1)*dt`, and each event counted at row
`round((times[k] - t_start)/dt)`, column `events[k]`.  A negative
`num_bins` makes `np.zeros` raise (`none`). -/
def aggSeq (numTypes : ℕ) (dt : ℚ) (s : EventSeq) : Option AggSeq :=
  let nb : ℤ := pyRound ((s.t_stop - s.t_start)/dt) + 1
  if nb < 0 then none
  else
    let numBins := nb.toNat
    ((s.times.zip s.events).foldlM
        (fun m p => binEvent s.t_start dt numBins numTypes m p.1 p.2)
        (List.replicate numBins (List.replicate numTypes 0))).map
      (fun mat =>
        { times := (List.range numBins).map (fun n : ℕ => s.t_start + ((n : ℚ) + 1) * dt)
          events := mat
          seq_feature := s.seq_feature
          t_start := s.t_start
          t_stop := s.t_stop
          label := s.label })

/-- `aggregating(database, dt)`: aggregate every sequence;
`num_types = len(database.type2idx)`. -/
def aggregating (db : Database) (dt : ℚ) : Option AggDatabase :=
  (db.sequences.mapM (aggSeq db.type2idx.length dt)).map
    (fun seqs =>
      { event_features := db.event_features
        type2idx := db.type2idx
        idx2type := db.idx2type
        seq2idx := db.seq2idx
        idx2seq := db.idx2seq
        sequences := seqs })

/-- `np.linalg.norm(f - g)`: Euclidean norm of the element-wise difference. -/
noncomputable def featureNorm (f g : List ℚ) : ℝ :=
  Real.sqrt ((((List.zipWith (fun a b => a - b) f g).map (fun x => x ^ 2)).sum : ℚ) : ℝ)

/-- Unnormalized pairing weight of candidate `sj` for target `si` in
feature mode (lines 119-130 of `stitching`; lines 254-265 of `superposing`
are identical): `exp(-(t_start_j - t_stop_i)^2)` behind the strict temporal
guard, multiplied by the feature kernel when both features are present,
then zeroed by the label veto. -/
noncomputable def pairWeight (si sj : EventSeq) : ℝ :=
  if si.t_stop < sj.t_start then
    let w : ℝ := Real.exp (-(((sj.t_start - si.t_stop : ℚ) : ℝ)) ^ 2)
    let w2 : ℝ :=
      match si.seq_feature, sj.seq_feature with
      | some f, some g => w * Real.exp (-(featureNorm f g) ^ 2)
      | _, _ => w
    match si.label, sj.label with
    | some l1, some l2 => if l1 ≠ l2 then 0 else w2
    | _, _ => w2
  else 0

/-- The pairing weight as the specification words it: zero whenever the
candidate does not start strictly after the target ends; otherwise the
temporal Gaussian kernel, times the feature kernel when both features are
present, with the label veto applied after the multiplicative terms. -/
noncomputable def pairWeightSpec (si sj : EventSeq) : ℝ :=
  if sj.t_start ≤ si.t_stop then 0
  else
    let base : ℝ :=
      Real.exp (-(((sj.t_start - si.t_stop : ℚ) : ℝ)) ^ 2) *
        (match si.seq_feature, sj.seq_feature with
         | some f, some g => Real.exp (-(featureNorm f g) ^ 2)
         | _, _ => 1)
    match si.label, sj.label with
    | some l1, some l2 => if l1 ≠ l2 then 0 else base
    | _, _ => base

/-- The probability vector actually used for `np.random.choice` in feature
mode (lines 134-138): the weights normalized by their sum when positive,
and the uniform vector `np.ones(n)/n` otherwise. -/
noncomputable def featureProb (si : EventSeq) (cands : List EventSeq) : List ℝ :=
  let w := cands.map (pairWeight si)
  if 0 < w.sum then w.map (fun x => x / w.sum)
  else List.replicate cands.length ((cands.length : ℝ))⁻¹

/-- Entry `(b, c)` of a count matrix. -/
def matEntry (mat : List (List ℕ)) (b c : ℕ) : ℕ := (mat.getD b []).getD c 0

/-- Total of all entries of a count matrix. -/
def matSum (mat : List (List ℕ)) : ℕ := (mat.map List.sum).sum

/-- The sequence of the worked aggregation example: window `[0, 10]`,
events at times `[1, 4, 6, 9]` with types `[0, 1, 0, 1]`. -/
def exSeq : EventSeq where
  times := [1, 4, 6, 9]
  events := [0, 1, 0, 1]
  seq_feature := none
  t_start := 0
  t_stop := 10
  label := none

/-- Two-type database holding `exSeq`, used for the aggregation example. -/
def exDb : Database where
  event_features := none
  type2idx := [("a", 0), ("b", 1)]
  idx2type := [(0, "a"), (1, "b")]
  seq2idx := [("s", 0)]
  idx2seq := [(0, "s")]
  sequences := [exSeq]

/-- Small concrete sequence used to instantiate witnesses. -/
def seqA : EventSeq where
  times := [1, 2]
  events := [0, 1]
  seq_feature := some [1, 2]
  t_start := 0
  t_stop := 3
  label := some 1

/-- Concrete candidate sequence starting after `seqA` ends. -/
def seqB : EventSeq where
  times := [5, 7]
  events := [1, 0]
  seq_feature := some [3, 4]
  t_start := 4
  t_stop := 8
  label := some 1

/-- Concrete sequence with no feature vector and no label. -/
def seqC : EventSeq where
  times := [0]
  events := [0]
  seq_feature := none
  t_start := 0
  t_stop := 1
  label := none

/-- Database holding `seqA`. -/
def dbA : Database where
  event_features := none
  type2idx := [("a", 0), ("b", 1)]
  idx2type := [(0, "a"), (1, "b")]
  seq2idx := [("s", 0)]
  idx2seq := [(0, "s")]
  sequences := [seqA]

/-- Database holding `seqB`, compatible with `dbA`. -/
def dbB : Database where
  event_features := none
  type2idx := [("a", 0), ("b", 1)]
  idx2type := [(0, "a"), (1, "b")]
  seq2idx := [("t", 0)]
  idx2seq := [(0, "t")]
  sequences := [seqB]

/-- Database with no sequences, compatible with `dbA`. -/
def dbBempty : Database where
  event_features := none
  type2idx := [("a", 0), ("b", 1)]
  idx2type := [(0, "a"), (1, "b")]
  seq2idx := []
  idx2seq := []
  sequences := []

/-- Database whose `type2idx` differs from `dbA`'s. -/
def dbDiff : Database where
  event_features := none
  type2idx := [("a", 0), ("c", 1)]
  idx2type := [(0, "a"), (1, "c")]
  seq2idx := [("t", 0)]
  idx2seq := [(0, "t")]
  sequences := [seqB]

theorem optionMapM_cons_inv {α β : Type} (f : α → Option β) (x : α)
    (xs : List α) (l : List β) (h : (x :: xs).mapM f = some l) :
    ∃ y ys, f x = some y ∧ xs.mapM f = some ys ∧ l = y :: ys := by
  rw [List.mapM_cons] at h
  cases hfx : f x with
  | none => rw [hfx] at h; simp at h
  | some y =>
    rw [hfx] at h
    cases hms : xs.mapM f with
    | none => rw [hms] at h; simp at h
    | some ys =>
      rw [hms] at h
      exact ⟨y, ys, rfl, rfl, (Option.some.inj h).symm⟩

theorem optionMapM_length {α β : Type} (f : α → Option β) :
    ∀ (xs : List α) (l : List β), xs.mapM f = some l → l.length = xs.length := by
  intro xs
  induction xs with
  | nil =>
    intro l h
    simp only [List.mapM_nil, Option.pure_def, Option.some.injEq] at h
    simp [← h]
  | cons x xs ih =>
    intro l h
    obtain ⟨y, ys, hy, hys, rfl⟩ := optionMapM_cons_inv f x xs l h
    simp [ih ys hys]

theorem optionMapM_getElem? {α β : Type} (f : α → Option β) :
    ∀ (xs : List α) (l : List β), xs.mapM f = some l →
      ∀ i : ℕ, l[i]? = (xs[i]?).bind f := by
  intro xs
  induction xs with
  | nil =>
    intro l h i
    simp only [List.mapM_nil, Option.pure_def, Option.some.injEq] at h
    simp [← h]
  | cons x xs ih =>
    intro l h i
    obtain ⟨y, ys, hy, hys, rfl⟩ := optionMapM_cons_inv f x xs l h
    cases i with
    | zero => simp [hy]
    | succ n => simpa using ih ys hys n

theorem optionMapM_isSome {α β : Type} (f : α → Option β) :
    ∀ (xs : List α), (∀ x ∈ xs, (f x).isSome) → ∃ l, xs.mapM f = some l := by
  intro xs
  induction xs with
  | nil => exact fun _ => ⟨[], rfl⟩
  | cons x xs ih =>
    intro h
    obtain ⟨y, hy⟩ := Option.isSome_iff_exists.mp (h x (List.mem_cons_self x xs))
    obtain ⟨ys, hys⟩ := ih (fun a ha => h a (List.mem_cons_of_mem x ha))
    exact ⟨y :: ys, by rw [List.mapM_cons, hy, hys]; rfl⟩

theorem pyRound_nonneg {q : ℚ} (h : 0 ≤ q) : 0 ≤ pyRound q := by
  have hf : (0 : ℤ) ≤ ⌊q⌋ := Int.floor_nonneg.mpr h
  unfold pyRound
  split_ifs <;> omega

theorem getD_lt {α : Type} (l : List α) (n : ℕ) (d : α) (h : n < l.length) :
    l.getD n d = l[n] := by
  rw [List.getD_eq_getElem?_getD, List.getElem?_eq_getElem h]; rfl

theorem getD_set_self {α : Type} (l : List α) (n : ℕ) (a d : α)
    (h : n < l.length) : (l.set n a).getD n d = a := by
  rw [List.getD_eq_getElem?_getD, List.getElem?_set]
  simp [h]

theorem getD_set_ne {α : Type} (l : List α) (n m : ℕ) (a d : α)
    (h : n ≠ m) : (l.set n a).getD m d = l.getD m d := by
  rw [List.getD_eq_getElem?_getD, List.getElem?_set,
    List.getD_eq_getElem?_getD]
  simp [h]

theorem sum_set_add (l : List ℕ) (n x : ℕ) (h : n < l.length) :
    (l.set n x).sum + l.getD n 0 = l.sum + x := by
  induction l generalizing n with
  | nil => simp at h
  | cons a l ih =>
    cases n with
    | zero => simp [List.set]; omega
    | succ m =>
      have hm : m < l.length := by simpa using h
      have := ih m hm
      simp only [List.set, List.sum_cons, List.getD_cons_succ]
      omega

theorem length_incMat (mat : List (List ℕ)) (n c : ℕ) :
    (incMat mat n c).length = mat.length := List.length_set mat n _

theorem rowlen_incMat (mat : List (List ℕ)) (n c numTypes : ℕ)
    (hn : n < mat.length) (h : ∀ r ∈ mat, r.length = numTypes) :
    ∀ r ∈ incMat mat n c, r.length = numTypes := by
  intro r hr
  rcases List.mem_or_eq_of_mem_set hr with h1 | h1
  · exact h r h1
  · subst h1
    unfold incRow
    rw [List.length_set, getD_lt _ _ _ hn]
    exact h _ (List.getElem_mem hn)

theorem matSum_incMat (mat : List (List ℕ)) (n c numTypes : ℕ)
    (hn : n < mat.length) (hrow : ∀ r ∈ mat, r.length = numTypes)
    (hc : c < numTypes) :
    matSum (incMat mat n c) = matSum mat + 1 := by
  have hrl : (mat.getD n []).length = numTypes := by
    rw [getD_lt _ _ _ hn]; exact hrow _ (List.getElem_mem hn)
  have hcl : c < (mat.getD n []).length := by omega
  have hrowsum : (incRow (mat.getD n []) c).sum = (mat.getD n []).sum + 1 := by
    have := sum_set_add (mat.getD n []) c ((mat.getD n []).getD c 0 + 1) hcl
    unfold incRow
    omega
  have hnm : n < (mat.map List.sum).length := by simpa using hn
  have hms := sum_set_add (mat.map List.sum) n (incRow (mat.getD n []) c).sum hnm
  have hgd : (mat.map List.sum).getD n 0 = (mat.getD n []).sum := by
    rw [List.getD_eq_getElem?_getD, List.getElem?_map,
      List.getElem?_eq_getElem hn, List.getD_eq_getElem?_getD,
      List.getElem?_eq_getElem hn]
    rfl
  unfold matSum incMat
  rw [List.map_set]
  omega

theorem matEntry_incMat (mat : List (List ℕ)) (n c numTypes b d : ℕ)
    (hn : n < mat.length) (hrow : ∀ r ∈ mat, r.length = numTypes)
    (hc : c < numTypes) :
    matEntry (incMat mat n c) b d =
      matEntry mat b d + (if b = n ∧ d = c then 1 else 0) := by
  have hrl : (mat.getD n []).length = numTypes := by
    rw [getD_lt _ _ _ hn]; exact hrow _ (List.getElem_mem hn)
  have hcl : c < (mat.getD n []).length := by omega
  unfold matEntry incMat
  by_cases hb : b = n
  · subst hb
    rw [getD_set_self _ _ _ _ hn]
    by_cases hd : d = c
    · subst hd
      unfold incRow
      rw [getD_set_self _ _ _ _ hcl]
      simp
    · unfold incRow
      rw [getD_set_ne _ _ _ _ _ (fun hcd => hd hcd.symm)]
      simp [hd]
  · rw [getD_set_ne _ _ _ _ _ (fun hnb => hb hnb.symm)]
    simp [hb]

theorem binEvent_in_range (t0 dt : ℚ) (nb numTypes : ℕ)
    (mat : List (List ℕ)) (tk : ℚ) (ck : ℕ)
    (h0 : 0 ≤ pyRound ((tk - t0)/dt)) (h1 : pyRound ((tk - t0)/dt) < (nb : ℤ))
    (h2 : ck < numTypes) :
    binEvent t0 dt nb numTypes mat tk ck =
      some (incMat mat (pyRound ((tk - t0)/dt)).toNat ck) := by
  unfold binEvent npIdx
  rw [if_pos h0, if_pos h1]
  have hck0 : (0 : ℤ) ≤ (ck : ℤ) := Int.natCast_nonneg ck
  have hck1 : (ck : ℤ) < (numTypes : ℤ) := by exact_mod_cast h2
  rw [if_pos hck0, if_pos hck1]
  simp [Int.toNat_natCast]

theorem foldBin_spec (t0 dt : ℚ) (nb numTypes : ℕ) :
    ∀ (ps : List (ℚ × ℕ)) (mat : List (List ℕ)),
      mat.length = nb → (∀ r ∈ mat, r.length = numTypes) →
      (∀ p ∈ ps, 0 ≤ pyRound ((p.1 - t0)/dt) ∧
        pyRound ((p.1 - t0)/dt) < (nb : ℤ) ∧ p.2 < numTypes) →
      ∃ mat2,
        ps.foldlM (fun m p => binEvent t0 dt nb numTypes m p.1 p.2) mat = some mat2 ∧
        mat2.length = nb ∧ (∀ r ∈ mat2, r.length = numTypes) ∧
        matSum mat2 = matSum mat + ps.length ∧
        (∀ b d : ℕ, matEntry mat2 b d =
          matEntry mat b d +
            ps.countP (fun p =>
              decide (pyRound ((p.1 - t0)/dt) = (b : ℤ) ∧ p.2 = d))) := by
  intro ps
  induction ps with
  | nil =>
    intro mat hlen hrow _
    exact ⟨mat, rfl, hlen, hrow, by simp, by intro b d; simp [List.countP_nil]⟩
  | cons q ps ih =>
    intro mat hlen hrow hin
    obtain ⟨hq0, hq1, hq2⟩ := hin q (List.mem_cons_self q ps)
    set n : ℕ := (pyRound ((q.1 - t0)/dt)).toNat with hn
    have hnlt : n < mat.length := by
      rw [hlen]
      omega
    have hstep := binEvent_in_range t0 dt nb numTypes mat q.1 q.2 hq0 hq1 hq2
    have hlen2 : (incMat mat n q.2).length = nb := by
      rw [length_incMat, hlen]
    have hrow2 : ∀ r ∈ incMat mat n q.2, r.length = numTypes :=
      rowlen_incMat mat n q.2 numTypes hnlt hrow
    obtain ⟨mat2, hfold, hl2, hr2, hsum2, hent2⟩ :=
      ih (incMat mat n q.2) hlen2 hrow2
        (fun p hp => hin p (List.mem_cons_of_mem q hp))
    refine ⟨mat2, ?_, hl2, hr2, ?_, ?_⟩
    · rw [List.foldlM_cons, hstep]
      simpa using hfold
    · rw [hsum2, matSum_incMat mat n q.2 numTypes hnlt hrow hq2]
      simp [List.length_cons]
      omega
    · intro b d
      rw [hent2 b d, matEntry_incMat mat n q.2 numTypes b d hnlt hrow hq2,
        List.countP_cons]
      have hiff : (b = n ∧ d = q.2) ↔
          (pyRound ((q.1 - t0)/dt) = (b : ℤ) ∧ q.2 = d) := by
        constructor
        · rintro ⟨rfl, rfl⟩
          constructor
          · rw [hn]; omega
          · rfl
        · rintro ⟨h1, h2⟩
          constructor
          · rw [hn]; omega
          · omega
      by_cases hbd : b = n ∧ d = q.2
      · rw [if_pos hbd]
        have : decide (pyRound ((q.1 - t0)/dt) = (b : ℤ) ∧ q.2 = d) = true := by
          simp [hiff.mp hbd]
        rw [if_pos this]
        omega
      · rw [if_neg hbd]
        have : ¬(decide (pyRound ((q.1 - t0)/dt) = (b : ℤ) ∧ q.2 = d) = true) := by
          simp only [decide_eq_true_eq]
          exact fun hcon => hbd (hiff.mpr hcon)
        rw [if_neg this]
        omega

theorem getD_replicate_split {α : Type} (a : ℕ) (x d : α) (b : ℕ) :
    (List.replicate a x).getD b d = if b < a then x else d := by
  rcases Nat.lt_or_ge b a with hb | hb
  · rw [getD_lt _ _ _ (by simpa using hb)]
    simp [List.getElem_replicate, hb]
  · rw [List.getD_eq_getElem?_getD, List.getElem?_eq_none (by simpa using hb)]
    simp [Nat.not_lt.mpr hb]

theorem matEntry_replicate_zero (a numTypes b d : ℕ) :
    matEntry (List.replicate a (List.replicate numTypes 0)) b d = 0 := by
  unfold matEntry
  rw [getD_replicate_split]
  split_ifs with hb
  · rw [getD_replicate_split]
    split_ifs <;> rfl
  · simp


theorem matSum_replicate_zero (a numTypes : ℕ) :
    matSum (List.replicate a (List.replicate numTypes 0)) = 0 := by
  unfold matSum
  simp [List.map_replicate, List.sum_replicate]

theorem aggSeq_spec (numTypes : ℕ) (dt : ℚ) (s : EventSeq) (nbN : ℕ)
    (hnb : (nbN : ℤ) = pyRound ((s.t_stop - s.t_start)/dt) + 1)
    (hst : s.t_start ≤ s.t_stop) (hdt : 0 < dt)
    (hlen : s.times.length = s.events.length)
    (hidx : ∀ t ∈ s.times, 0 ≤ pyRound ((t - s.t_start)/dt) ∧
      pyRound ((t - s.t_start)/dt) < (nbN : ℤ))
    (hty : ∀ c ∈ s.events, c < numTypes) :
    ∃ a, aggSeq numTypes dt s = some a ∧
      a.times = (List.range nbN).map (fun n : ℕ => s.t_start + ((n : ℚ) + 1) * dt) ∧
      a.times.length = nbN ∧
      matSum a.events = s.events.length ∧
      (∀ b d : ℕ, matEntry a.events b d =
        (s.times.zip s.events).countP (fun p =>
          decide (pyRound ((p.1 - s.t_start)/dt) = (b : ℤ) ∧ p.2 = d))) ∧
      a.seq_feature = s.seq_feature ∧ a.t_start = s.t_start ∧
      a.t_stop = s.t_stop ∧ a.label = s.label := by
  have h0 : 0 ≤ pyRound ((s.t_stop - s.t_start)/dt) :=
    pyRound_nonneg (div_nonneg (by linarith) hdt.le)
  have hnbneg : ¬(pyRound ((s.t_stop - s.t_start)/dt) + 1 < 0) := by omega
  have htn : (pyRound ((s.t_stop - s.t_start)/dt) + 1).toNat = nbN := by omega
  have hziplen : (s.times.zip s.events).length = s.events.length := by
    rw [List.length_zip, hlen]
    exact Nat.min_self _
  obtain ⟨mat2, hfold, hl2, hr2, hsum2, hent2⟩ :=
    foldBin_spec s.t_start dt nbN numTypes (s.times.zip s.events)
      (List.replicate nbN (List.replicate numTypes 0))
      (by simp)
      (by intro r hr; exact ((List.mem_replicate.mp hr).2 ▸ List.length_replicate _ _))
      (by
        intro p hp
        obtain ⟨hp1, hp2⟩ := List.of_mem_zip hp
        exact ⟨(hidx p.1 hp1).1, (hidx p.1 hp1).2, hty p.2 hp2⟩)
  have heq : aggSeq numTypes dt s = some
      { times := (List.range nbN).map (fun n : ℕ => s.t_start + ((n : ℚ) + 1) * dt)
        events := mat2
        seq_feature := s.seq_feature
        t_start := s.t_start
        t_stop := s.t_stop
        label := s.label } := by
    simp only [aggSeq]
    rw [if_neg hnbneg, htn, hfold]
    rfl
  refine ⟨_, heq, rfl, by simp, ?_, ?_, rfl, rfl, rfl, rfl⟩
  · rw [hsum2, matSum_replicate_zero, hziplen]
    omega
  · intro b d
    rw [hent2 b d, matEntry_replicate_zero]
    omega

theorem mem_of_getElem?_some {α : Type} {l : List α} {i : ℕ} {a : α}
    (h : l[i]? = some a) : a ∈ l := by
  obtain ⟨hlt, rfl⟩ := List.getElem?_eq_some_iff.mp h
  exact List.getElem_mem hlt

/-- C2.  For every database satisfying the data-model invariants
(ordered window, aligned `times`/`events`, event types within the
vocabulary) and every `dt > 0` such that every event's rounded bin index
lies in `[0, num_bins)`, `aggregating` succeeds and produces, for each
sequence, exactly `num_bins = round((t_stop - t_start)/dt) + 1` bins with
bin-end timestamps `t_start + (n+1)*dt`; each event `k` is counted into
bin `round((times[k] - t_start)/dt)` under its type, and the count matrix
total equals the number of original events of the sequence. -/
theorem aggregating_bins_and_counts (db : Database) (dt : ℚ) (hdt : 0 < dt)
    (hwf : ∀ s ∈ db.sequences, s.t_start ≤ s.t_stop ∧
      s.times.length = s.events.length ∧
      (∀ c ∈ s.events, c < db.type2idx.length) ∧
      (∀ t ∈ s.times, 0 ≤ pyRound ((t - s.t_start)/dt) ∧
        pyRound ((t - s.t_start)/dt) < pyRound ((s.t_stop - s.t_start)/dt) + 1)) :
    ∃ out, aggregating db dt = some out ∧
      out.sequences.length = db.sequences.length ∧
      ∀ (i : ℕ) (s : EventSeq), db.sequences[i]? = some s →
        ∃ a, out.sequences[i]? = some a ∧
          a.times.length = (pyRound ((s.t_stop - s.t_start)/dt) + 1).toNat ∧
          a.times = (List.range (pyRound ((s.t_stop - s.t_start)/dt) + 1).toNat).map
            (fun n : ℕ => s.t_start + ((n : ℚ) + 1) * dt) ∧
          matSum a.events = s.events.length ∧
          (∀ b d : ℕ, matEntry a.events b d =
            (s.times.zip s.events).countP (fun p =>
              decide (pyRound ((p.1 - s.t_start)/dt) = (b : ℤ) ∧ p.2 = d))) := by
  have hspec : ∀ s ∈ db.sequences, ∃ a,
      aggSeq db.type2idx.length dt s = some a ∧
      a.times = (List.range (pyRound ((s.t_stop - s.t_start)/dt) + 1).toNat).map
        (fun n : ℕ => s.t_start + ((n : ℚ) + 1) * dt) ∧
      a.times.length = (pyRound ((s.t_stop - s.t_start)/dt) + 1).toNat ∧
      matSum a.events = s.events.length ∧
      (∀ b d : ℕ, matEntry a.events b d =
        (s.times.zip s.events).countP (fun p =>
          decide (pyRound ((p.1 - s.t_start)/dt) = (b : ℤ) ∧ p.2 = d))) := by
    intro s hs
    obtain ⟨hst, hlen, hty, hidx⟩ := hwf s hs
    have h0 : 0 ≤ pyRound ((s.t_stop - s.t_start)/dt) :=
      pyRound_nonneg (div_nonneg (by linarith) hdt.le)
    have hcast : (((pyRound ((s.t_stop - s.t_start)/dt) + 1).toNat : ℤ)) =
        pyRound ((s.t_stop - s.t_start)/dt) + 1 := Int.toNat_of_nonneg (by omega)
    obtain ⟨a, ha, h1, h2, h3, h4, _⟩ :=
      aggSeq_spec db.type2idx.length dt s
        (pyRound ((s.t_stop - s.t_start)/dt) + 1).toNat hcast hst hdt hlen
        (by
          intro t ht
          refine ⟨(hidx t ht).1, ?_⟩
          rw [hcast]
          exact (hidx t ht).2)
        hty
    exact ⟨a, ha, h1, h2, h3, h4⟩
  obtain ⟨l, hl⟩ := optionMapM_isSome (aggSeq db.type2idx.length dt) db.sequences
    (by
      intro s hs
      obtain ⟨a, ha, _⟩ := hspec s hs
      simp [ha])
  refine ⟨{ event_features := db.event_features, type2idx := db.type2idx
            idx2type := db.idx2type, seq2idx := db.seq2idx
            idx2seq := db.idx2seq, sequences := l }, ?_, ?_, ?_⟩
  · unfold aggregating
    rw [hl]
    rfl
  · simpa using optionMapM_length _ db.sequences l hl
  · intro i s hseq
    have hli := optionMapM_getElem? _ db.sequences l hl i
    rw [hseq] at hli
    obtain ⟨a, ha, h1, h2, h3, h4⟩ := hspec s (mem_of_getElem?_some hseq)
    refine ⟨a, ?_, h2, h1, h3, h4⟩
    show l[i]? = some a
    rw [hli]
    simpa using ha

theorem npArgsort_graph (l : List ℚ) :
    ∀ p ∈ List.insertionSort timeOrder l.enum, l[p.1]? = some p.2 := by
  intro p hp
  exact List.mem_enum_iff_getElem?.mp
    ((List.perm_insertionSort timeOrder l.enum).mem_iff.mp hp)

theorem npIndexList_argsort_eq (l : List ℚ) :
    npIndexList l (npArgsort l) =
      (List.insertionSort timeOrder l.enum).map Prod.snd := by
  unfold npIndexList npArgsort
  rw [List.map_map]
  apply List.map_congr_left
  intro p hp
  have h2 := npArgsort_graph l p hp
  simp [Function.comp, List.getD_eq_getElem?_getD, h2]

theorem npIndexList_argsort_sorted (l : List ℚ) :
    List.Sorted (fun a b => a ≤ b) (npIndexList l (npArgsort l)) := by
  rw [npIndexList_argsort_eq]
  exact List.Pairwise.map Prod.snd (fun a b h => h)
    (List.sorted_insertionSort timeOrder l.enum)

theorem npIndexList_argsort_perm (l : List ℚ) :
    (npIndexList l (npArgsort l)).Perm l := by
  rw [npIndexList_argsort_eq]
  have h := (List.perm_insertionSort timeOrder l.enum).map Prod.snd
  rwa [List.enum_map_snd] at h

theorem zip_eq_enum_map {α : Type} [Inhabited α] (l : List ℚ) (e : List α)
    (h : e.length = l.length) :
    l.zip e = l.enum.map (fun p => (p.2, e.getD p.1 default)) := by
  apply List.ext_getElem
  · simp [List.length_zip, h, List.enum_length]
  · intro n h1 h2
    have hn : n < e.length := by
      rw [List.length_zip, h] at h1
      omega
    rw [List.getElem_zip, List.getElem_map, List.getElem_enum]
    rw [getD_lt e n default hn]

theorem npArgsort_zip_perm {α : Type} [Inhabited α] (l : List ℚ) (e : List α)
    (h : e.length = l.length) :
    ((npIndexList l (npArgsort l)).zip (npIndexList e (npArgsort l))).Perm
      (l.zip e) := by
  have hL : npIndexList e (npArgsort l) =
      (List.insertionSort timeOrder l.enum).map (fun p => e.getD p.1 default) := by
    unfold npIndexList npArgsort
    rw [List.map_map]
    rfl
  rw [npIndexList_argsort_eq, hL, List.zip_map', zip_eq_enum_map l e h]
  exact (List.perm_insertionSort timeOrder l.enum).map _

theorem superposeSeq_parts (si sj : EventSeq)
    (h1 : si.times.length = si.events.length)
    (h2 : sj.times.length = sj.events.length) :
    List.Sorted (fun a b => a ≤ b) (superposeSeq si sj).times ∧
    ((superposeSeq si sj).times.zip (superposeSeq si sj).events).Perm
      ((si.times ++ sj.times).zip (si.events ++ sj.events)) ∧
    (superposeSeq si sj).times.Perm (si.times ++ sj.times) := by
  have hlen : (si.events ++ sj.events).length = (si.times ++ sj.times).length := by
    simp [h1, h2]
  exact ⟨npIndexList_argsort_sorted _, npArgsort_zip_perm _ _ hlen,
    npIndexList_argsort_perm _⟩

theorem compose_incompatible (combine : EventSeq → EventSeq → EventSeq)
    (db1 db2 : Database) (method : Option String) (perm : List ℕ)
    (picks : ℕ → ℕ) (hty : dictEq db1.type2idx db2.type2idx = false) :
    composeDatabases combine db1 db2 method perm picks = some db1 := by
  unfold composeDatabases
  rw [hty]
  rfl

theorem compose_unknown_method (combine : EventSeq → EventSeq → EventSeq)
    (db1 db2 : Database) (method : Option String) (perm : List ℕ)
    (picks : ℕ → ℕ) (h1 : ¬(method = none ∨ method = some "random"))
    (h2 : method ≠ some "feature") :
    composeDatabases combine db1 db2 method perm picks = some db1 := by
  unfold composeDatabases
  by_cases hty : dictEq db1.type2idx db2.type2idx
  · rw [if_pos hty, if_neg h1, if_neg h2]
  · rw [if_neg hty]

theorem composeRandom_spec (combine : EventSeq → EventSeq → EventSeq)
    (db1 db2 : Database) (method : Option String) (perm : List ℕ)
    (picks : ℕ → ℕ)
    (hty : dictEq db1.type2idx db2.type2idx = true)
    (hmeth : method = none ∨ method = some "random")
    (hm : db2.sequences.length ≠ 0)
    (hlen : perm.length = db2.sequences.length)
    (hval : ∀ x ∈ perm, x < db2.sequences.length) :
    ∃ out, composeDatabases combine db1 db2 method perm picks = some out ∧
      out.event_features = db1.event_features ∧
      out.type2idx = db1.type2idx ∧ out.idx2type = db1.idx2type ∧
      out.seq2idx = db1.seq2idx ∧ out.idx2seq = db1.idx2seq ∧
      out.sequences.length = db1.sequences.length ∧
      ∀ (i : ℕ) (si : EventSeq), db1.sequences[i]? = some si →
        ∃ pj sj, perm[i % db2.sequences.length]? = some pj ∧
          db2.sequences[pj]? = some sj ∧
          out.sequences[i]? = some (combine si sj) := by
  set f : ℕ × EventSeq → Option EventSeq := fun p =>
    if db2.sequences.length = 0 then none
    else
      (perm[p.1 % db2.sequences.length]?).bind (fun pj =>
        (db2.sequences[pj]?).bind (fun sj =>
          some (combine p.2 sj))) with hf
  have hstep : ∀ (i : ℕ) (si : EventSeq), ∃ pj sj,
      perm[i % db2.sequences.length]? = some pj ∧
      db2.sequences[pj]? = some sj ∧
      f (i, si) = some (combine si sj) := by
    intro i si
    have hmod : i % db2.sequences.length < perm.length := by
      rw [hlen]
      exact Nat.mod_lt i (Nat.pos_of_ne_zero hm)
    have hpj : perm[i % db2.sequences.length]? =
        some (perm.get ⟨i % db2.sequences.length, hmod⟩) := by
      rw [List.getElem?_eq_getElem hmod]
      rfl
    set pj := perm.get ⟨i % db2.sequences.length, hmod⟩ with hpjdef
    have hpjlt : pj < db2.sequences.length :=
      hval pj (List.get_mem perm _ hmod)
    have hsj : db2.sequences[pj]? = some (db2.sequences.get ⟨pj, hpjlt⟩) := by
      rw [List.getElem?_eq_getElem hpjlt]
      rfl
    refine ⟨pj, _, hpj, hsj, ?_⟩
    rw [hf]
    simp only [if_neg hm]
    rw [hpj]
    simp only [Option.some_bind]
    rw [hsj]
    simp only [Option.some_bind]
  have hsome : ∀ p ∈ db1.sequences.enum, (f p).isSome := by
    intro p _
    obtain ⟨pj, sj, _, _, hfp⟩ := hstep p.1 p.2
    simp [hfp]
  obtain ⟨l, hl⟩ := optionMapM_isSome f db1.sequences.enum hsome
  have hcomp : composeDatabases combine db1 db2 method perm picks =
      some { db1 with sequences := l } := by
    unfold composeDatabases
    rw [hty]
    have hmt : (method = none ∨ method = some "random") := hmeth
    rw [if_pos rfl, if_pos hmt, ← hf, hl]
    rfl
  refine ⟨_, hcomp, rfl, rfl, rfl, rfl, rfl, ?_, ?_⟩
  · have := optionMapM_length f db1.sequences.enum l hl
    simpa [List.enum_length] using this
  · intro i si hsi
    obtain ⟨pj, sj, hpj, hsj, hfp⟩ := hstep i si
    refine ⟨pj, sj, hpj, hsj, ?_⟩
    show l[i]? = some (combine si sj)
    rw [optionMapM_getElem? f db1.sequences.enum l hl i, List.getElem?_enum, hsi]
    simpa using hfp

theorem composeFeature_spec (combine : EventSeq → EventSeq → EventSeq)
    (db1 db2 : Database) (perm : List ℕ) (picks : ℕ → ℕ)
    (hty : dictEq db1.type2idx db2.type2idx = true)
    (hm : db2.sequences.length ≠ 0)
    (hpicks : ∀ i, picks i < db2.sequences.length) :
    ∃ out, composeDatabases combine db1 db2 (some "feature") perm picks = some out ∧
      out.event_features = db1.event_features ∧
      out.type2idx = db1.type2idx ∧ out.idx2type = db1.idx2type ∧
      out.seq2idx = db1.seq2idx ∧ out.idx2seq = db1.idx2seq ∧
      out.sequences.length = db1.sequences.length ∧
      ∀ (i : ℕ) (si : EventSeq), db1.sequences[i]? = some si →
        ∃ sj, db2.sequences[picks i]? = some sj ∧
          out.sequences[i]? = some (combine si sj) := by
  set f : ℕ × EventSeq → Option EventSeq := fun p =>
    if db2.sequences.length = 0 then none
    else
      (db2.sequences[picks p.1]?).bind (fun sj =>
        some (combine p.2 sj)) with hf
  have hstep : ∀ (i : ℕ) (si : EventSeq), ∃ sj,
      db2.sequences[picks i]? = some sj ∧ f (i, si) = some (combine si sj) := by
    intro i si
    have hlt : picks i < db2.sequences.length := hpicks i
    have hsj : db2.sequences[picks i]? =
        some (db2.sequences.get ⟨picks i, hlt⟩) := by
      rw [List.getElem?_eq_getElem hlt]
      rfl
    refine ⟨_, hsj, ?_⟩
    rw [hf]
    simp only [if_neg hm]
    rw [hsj]
    simp only [Option.some_bind]
  have hsome : ∀ p ∈ db1.sequences.enum, (f p).isSome := by
    intro p _
    obtain ⟨sj, _, hfp⟩ := hstep p.1 p.2
    simp [hfp]
  obtain ⟨l, hl⟩ := optionMapM_isSome f db1.sequences.enum hsome
  have hcomp : composeDatabases combine db1 db2 (some "feature") perm picks =
      some { db1 with sequences := l } := by
    unfold composeDatabases
    rw [hty]
    have hmt : ¬((some "feature" : Option String) = none ∨
        (some "feature" : Option String) = some "random") := by
      simp
    rw [if_pos rfl, if_neg hmt, if_pos rfl, ← hf, hl]
    rfl
  refine ⟨_, hcomp, rfl, rfl, rfl, rfl, rfl, ?_, ?_⟩
  · have := optionMapM_length f db1.sequences.enum l hl
    simpa [List.enum_length] using this
  · intro i si hsi
    obtain ⟨sj, hsj, hfp⟩ := hstep i si
    refine ⟨sj, hsj, ?_⟩
    show l[i]? = some (combine si sj)
    rw [optionMapM_getElem? f db1.sequences.enum l hl i, List.getElem?_enum, hsi]
    simpa using hfp

theorem composeRandom_emptyB (combine : EventSeq → EventSeq → EventSeq)
    (db1 db2 : Database) (method : Option String) (perm : List ℕ)
    (picks : ℕ → ℕ)
    (hty : dictEq db1.type2idx db2.type2idx = true)
    (hmeth : method = none ∨ method = some "random")
    (hm : db2.sequences.length = 0)
    (hA : db1.sequences ≠ []) :
    composeDatabases combine db1 db2 method perm picks = none := by
  obtain ⟨s0, rest, hcons⟩ := List.exists_cons_of_ne_nil hA
  unfold composeDatabases
  rw [hty, if_pos rfl, if_pos hmeth, hcons]
  have henum : (s0 :: rest).enum = (0, s0) :: rest.enumFrom 1 := rfl
  rw [henum, List.mapM_cons]
  simp [hm]

/-- C3.  In feature-mode pair selection (the weight loop shared verbatim by
`stitching` and `superposing`), the unnormalized weight of candidate `sj`
for target `si` is 0 whenever `sj.t_start ≤ si.t_stop`; otherwise it is
`exp(-(sj.t_start - si.t_stop)^2)`, multiplied by
`exp(-‖si.seq_feature - sj.seq_feature‖^2)` when both features are present,
and forced to 0 when both labels are present and differ, the veto being
applied after the multiplicative terms. -/
theorem pairWeight_eq_spec (si sj : EventSeq) :
    pairWeight si sj = pairWeightSpec si sj := by
  unfold pairWeight pairWeightSpec
  rcases le_or_lt sj.t_start si.t_stop with hle | hlt
  · rw [if_neg (not_lt.mpr hle), if_pos hle]
  · rw [if_pos hlt, if_neg (not_le.mpr hlt)]
    rcases hsf : si.seq_feature with _ | f <;>
      rcases hsg : sj.seq_feature with _ | g <;>
        rcases hl1 : si.label with _ | l1 <;>
          rcases hl2 : sj.label with _ | l2 <;>
            simp [mul_one]

theorem pairWeight_nonneg (si sj : EventSeq) : 0 ≤ pairWeight si sj := by
  unfold pairWeight
  split_ifs with h
  · rcases hsf : si.seq_feature with _ | f <;>
      rcases hsg : sj.seq_feature with _ | g <;>
        rcases hl1 : si.label with _ | l1 <;>
          rcases hl2 : sj.label with _ | l2 <;>
            simp only [hsf, hsg, hl1, hl2] <;>
              positivity
  · exact le_refl 0

theorem list_sum_nonneg_real {l : List ℝ} (h : ∀ x ∈ l, 0 ≤ x) : 0 ≤ l.sum := by
  induction l with
  | nil => simp
  | cons a l ih =>
    rw [List.sum_cons]
    have ha := h a (List.mem_cons_self a l)
    have hl := ih (fun x hx => h x (List.mem_cons_of_mem a hx))
    linarith

/-- C4 (amended: the guarantee requires at least one candidate sequence in
the second database).  In feature mode the weights are normalized to a
probability distribution over all candidates (entries nonnegative, total
one); when every candidate's weight is zero the distribution used is the
uniform one; and for compatible databases whose second operand is
nonempty, `stitching` and `superposing` in feature mode always return a
database (no raised error), whatever index the random draw picks. -/
theorem featureProb_distribution (si : EventSeq) (cands : List EventSeq)
    (hne : cands ≠ []) :
    (∀ x ∈ featureProb si cands, 0 ≤ x) ∧
    (featureProb si cands).sum = 1 ∧
    ((∀ sj ∈ cands, pairWeight si sj = 0) →
      featureProb si cands =
        List.replicate cands.length ((cands.length : ℝ))⁻¹) ∧
    (∀ (db1 db2 : Database) (perm : List ℕ) (picks : ℕ → ℕ),
      dictEq db1.type2idx db2.type2idx = true →
      db2.sequences = cands →
      (∀ i, picks i < cands.length) →
      (stitching db1 db2 (some "feature") perm picks).isSome ∧
      (superposing db1 db2 (some "feature") perm picks).isSome) := by
  have hlen0 : cands.length ≠ 0 := fun h => hne (List.length_eq_zero.mp h)
  have hcast : ((cands.length : ℝ)) ≠ 0 := Nat.cast_ne_zero.mpr hlen0
  have hwnn : ∀ x ∈ cands.map (pairWeight si), 0 ≤ x := by
    intro x hx
    obtain ⟨sj, _, rfl⟩ := List.mem_map.mp hx
    exact pairWeight_nonneg si sj
  have huni : (List.replicate cands.length ((cands.length : ℝ))⁻¹).sum = 1 := by
    rw [List.sum_replicate, nsmul_eq_mul, mul_inv_cancel₀ hcast]
  refine ⟨?_, ?_, ?_, ?_⟩
  · intro x hx
    simp only [featureProb] at hx
    split_ifs at hx with hs
    · obtain ⟨y, hy, rfl⟩ := List.mem_map.mp hx
      exact div_nonneg (hwnn y hy) (le_of_lt hs)
    · rw [List.eq_of_mem_replicate hx]
      positivity
  · simp only [featureProb]
    split_ifs with hs
    · simp only [div_eq_mul_inv]
      rw [List.sum_map_mul_right (List.map (pairWeight si) cands) (fun x => x)
        ((List.map (pairWeight si) cands).sum)⁻¹]
      have hid : List.map (fun x : ℝ => x) (List.map (pairWeight si) cands) =
          List.map (pairWeight si) cands := List.map_id' _
      rw [hid]
      exact mul_inv_cancel₀ (ne_of_gt hs)
    · exact huni
  · intro hz
    simp only [featureProb]
    have hsum0 : (cands.map (pairWeight si)).sum = 0 := by
      apply List.sum_eq_zero
      intro x hx
      obtain ⟨sj, hsj, rfl⟩ := List.mem_map.mp hx
      exact hz sj hsj
    rw [if_neg (by rw [hsum0]; exact lt_irrefl 0)]
  · intro db1 db2 perm picks hty hseqs hpicks
    have hm : db2.sequences.length ≠ 0 := by rw [hseqs]; exact hlen0
    have hpicks2 : ∀ i, picks i < db2.sequences.length := by
      intro i
      rw [hseqs]
      exact hpicks i
    obtain ⟨out1, hout1, _⟩ :=
      composeFeature_spec stitchSeq db1 db2 perm picks hty hm hpicks2
    obtain ⟨out2, hout2, _⟩ :=
      composeFeature_spec superposeSeq db1 db2 perm picks hty hm hpicks2
    exact ⟨by simp [stitching, hout1], by simp [superposing, hout2]⟩

/-- C4 counterexample.  The claim promises that feature-mode pairing never
raises for any compatible input databases, but with a nonempty first
database and an empty second database the code reaches
`np.random.choice(0, ...)`, which raises: the embedding returns `none`
(while the databases are compatible and the first is nonempty). -/
theorem featureMode_emptyB_raises :
    stitching dbA dbBempty (some "feature") [] (fun _ => 0) = none ∧
    superposing dbA dbBempty (some "feature") [] (fun _ => 0) = none ∧
    dictEq dbA.type2idx dbBempty.type2idx = true ∧
    dbA.sequences ≠ [] := by
  exact ⟨by decide, by decide, by decide, by decide⟩

/-- C4 witness: a concrete one-candidate instantiation of the amended
guarantee. -/
theorem featureProb_distribution_witness :
    (featureProb seqA [seqB]).sum = 1 ∧
    (stitching dbA dbB (some "feature") [] (fun _ => 0)).isSome ∧
    (superposing dbA dbB (some "feature") [] (fun _ => 0)).isSome := by
  have h := featureProb_distribution seqA [seqB] (by decide)
  have hops := h.2.2.2 dbA dbB [] (fun _ => 0) (by decide) rfl (fun i => Nat.zero_lt_one)
  exact ⟨h.2.1, hops.1, hops.2⟩

/-- C5.  For compatible databases in random mode, every output sequence
`i` is built from its paired `B`-sequence by appending the time-shifted
timestamps `B[j].times - B[j].t_start + A[i].t_stop` (all of them landing
at or after `A[i].t_stop` when `B[j]`'s events start no earlier than its
window), appending the events, with output length the sum of the input
lengths and stop time `A[i].t_stop + (B[j].t_stop - B[j].t_start)`, which
is at least `A[i].t_stop` whenever `B[j].t_start ≤ B[j].t_stop`. -/
theorem stitching_random_output (db1 db2 : Database) (perm : List ℕ)
    (picks : ℕ → ℕ)
    (hty : dictEq db1.type2idx db2.type2idx = true)
    (hm : db2.sequences.length ≠ 0)
    (hlen : perm.length = db2.sequences.length)
    (hval : ∀ x ∈ perm, x < db2.sequences.length) :
    ∃ out, stitching db1 db2 (some "random") perm picks = some out ∧
      out.sequences.length = db1.sequences.length ∧
      ∀ (i : ℕ) (si : EventSeq), db1.sequences[i]? = some si →
        ∃ pj sj, perm[i % db2.sequences.length]? = some pj ∧
          db2.sequences[pj]? = some sj ∧
          ∃ o, out.sequences[i]? = some o ∧
            o.times = si.times ++ sj.times.map (fun t => t - sj.t_start + si.t_stop) ∧
            o.events = si.events ++ sj.events ∧
            o.times.length = si.times.length + sj.times.length ∧
            o.t_stop = si.t_stop + (sj.t_stop - sj.t_start) ∧
            (sj.t_start ≤ sj.t_stop → si.t_stop ≤ o.t_stop) ∧
            ((∀ u ∈ sj.times, sj.t_start ≤ u) →
              ∀ u ∈ sj.times.map (fun t => t - sj.t_start + si.t_stop),
                si.t_stop ≤ u) := by
  obtain ⟨out, hout, _, _, _, _, _, hcount, hper⟩ :=
    composeRandom_spec stitchSeq db1 db2 (some "random") perm picks hty
      (Or.inr rfl) hm hlen hval
  refine ⟨out, hout, hcount, ?_⟩
  intro i si hsi
  obtain ⟨pj, sj, hpj, hsj, ho⟩ := hper i si hsi
  refine ⟨pj, sj, hpj, hsj, stitchSeq si sj, ho, rfl, rfl, ?_, ?_, ?_, ?_⟩
  · simp [stitchSeq]
  · show si.t_stop + sj.t_stop - sj.t_start = si.t_stop + (sj.t_stop - sj.t_start)
    ring
  · intro hse
    show si.t_stop ≤ si.t_stop + sj.t_stop - sj.t_start
    linarith
  · intro hfirst u hu
    obtain ⟨t0, ht0, rfl⟩ := List.mem_map.mp hu
    have := hfirst t0 ht0
    linarith

/-- C5 witness at a concrete compatible pair. -/
theorem stitching_random_output_witness :
    ∃ out, stitching dbA dbB (some "random") [0] (fun _ => 0) = some out ∧
      out.sequences.length = dbA.sequences.length := by
  obtain ⟨out, hout, hcount, _⟩ :=
    stitching_random_output dbA dbB [0] (fun _ => 0)
      (by decide) (by decide) (by decide) (by decide)
  exact ⟨out, hout, hcount⟩

/-- C6.  For compatible databases in random mode, every output sequence of
`superposing` carries the time-sorted merge of the two input timelines
(times non-decreasing and a permutation of the concatenation, with the
time/event pairing preserved by the shared argsort order), window start
`min(A[i].t_start, B[j].t_stop)` and stop `max(A[i].t_stop, B[j].t_stop)`
(the asymmetric start comparison is the source's literal behavior). -/
theorem superposing_random_output (db1 db2 : Database) (perm : List ℕ)
    (picks : ℕ → ℕ)
    (hty : dictEq db1.type2idx db2.type2idx = true)
    (hm : db2.sequences.length ≠ 0)
    (hlen : perm.length = db2.sequences.length)
    (hval : ∀ x ∈ perm, x < db2.sequences.length)
    (hwf1 : ∀ s ∈ db1.sequences, s.times.length = s.events.length)
    (hwf2 : ∀ s ∈ db2.sequences, s.times.length = s.events.length) :
    ∃ out, superposing db1 db2 (some "random") perm picks = some out ∧
      out.sequences.length = db1.sequences.length ∧
      ∀ (i : ℕ) (si : EventSeq), db1.sequences[i]? = some si →
        ∃ pj sj, perm[i % db2.sequences.length]? = some pj ∧
          db2.sequences[pj]? = some sj ∧
          ∃ o, out.sequences[i]? = some o ∧
            List.Sorted (fun a b => a ≤ b) o.times ∧
            o.times.Perm (si.times ++ sj.times) ∧
            (o.times.zip o.events).Perm
              ((si.times ++ sj.times).zip (si.events ++ sj.events)) ∧
            o.t_start = min si.t_start sj.t_stop ∧
            o.t_stop = max si.t_stop sj.t_stop := by
  obtain ⟨out, hout, _, _, _, _, _, hcount, hper⟩ :=
    composeRandom_spec superposeSeq db1 db2 (some "random") perm picks hty
      (Or.inr rfl) hm hlen hval
  refine ⟨out, hout, hcount, ?_⟩
  intro i si hsi
  obtain ⟨pj, sj, hpj, hsj, ho⟩ := hper i si hsi
  obtain ⟨hsort, hzip, htimes⟩ :=
    superposeSeq_parts si sj
      (hwf1 si (mem_of_getElem?_some hsi))
      (hwf2 sj (mem_of_getElem?_some hsj))
  exact ⟨pj, sj, hpj, hsj, superposeSeq si sj, ho, hsort, htimes, hzip, rfl, rfl⟩

/-- C6 witness at a concrete compatible pair. -/
theorem superposing_random_output_witness :
    ∃ out, superposing dbA dbB (some "random") [0] (fun _ => 0) = some out ∧
      out.sequences.length = dbA.sequences.length := by
  obtain ⟨out, hout, hcount, _⟩ :=
    superposing_random_output dbA dbB [0] (fun _ => 0)
      (by decide) (by decide) (by decide) (by decide) (by decide) (by decide)
  exact ⟨out, hout, hcount⟩

/-- C7.  For both stitching and superposition of a pair of sequences: when
both operands carry a feature vector (of equal dimension), the output's
`seq_feature` is their element-wise mean `(f[k] + g[k])/2`; when either is
absent, the output's `seq_feature` is the first operand's, unchanged. -/
theorem seq_feature_average_rule (si sj : EventSeq) :
    (∀ f g : List ℚ, si.seq_feature = some f → sj.seq_feature = some g →
      f.length = g.length →
      ∃ h : List ℚ, (stitchSeq si sj).seq_feature = some h ∧
        (superposeSeq si sj).seq_feature = some h ∧
        h.length = f.length ∧
        ∀ (k : ℕ) (hk : k < f.length) (hk2 : k < g.length) (hk3 : k < h.length),
          h.get ⟨k, hk3⟩ = (f.get ⟨k, hk⟩ + g.get ⟨k, hk2⟩)/2) ∧
    ((si.seq_feature = none ∨ sj.seq_feature = none) →
      (stitchSeq si sj).seq_feature = si.seq_feature ∧
      (superposeSeq si sj).seq_feature = si.seq_feature) := by
  constructor
  · intro f g hf hg hfg
    refine ⟨List.zipWith (fun a b => (a + b)/2) f g, ?_, ?_, ?_, ?_⟩
    · simp [stitchSeq, hf, hg]
    · simp [superposeSeq, hf, hg]
    · rw [List.length_zipWith, hfg]
      exact Nat.min_self _
    · intro k hk hk2 hk3
      have : (List.zipWith (fun a b : ℚ => (a + b)/2) f g).get ⟨k, hk3⟩ =
          (List.zipWith (fun a b : ℚ => (a + b)/2) f g)[k] := rfl
      rw [this, List.getElem_zipWith]
      rfl
  · intro habs
    rcases habs with hf | hg
    · constructor
      · rcases hg : sj.seq_feature with _ | g <;> simp [stitchSeq, hf, hg]
      · rcases hg : sj.seq_feature with _ | g <;> simp [superposeSeq, hf, hg]
    · constructor
      · rcases hf : si.seq_feature with _ | f <;> simp [stitchSeq, hf, hg]
      · rcases hf : si.seq_feature with _ | f <;> simp [superposeSeq, hf, hg]

/-- C7 witness: both-present averaging at `seqA`/`seqB` and the
pass-through when the second operand lacks a feature (`seqC`). -/
theorem seq_feature_average_rule_witness :
    (∃ h : List ℚ, (stitchSeq seqA seqB).seq_feature = some h ∧
      (superposeSeq seqA seqB).seq_feature = some h ∧
      h.length = ([1, 2] : List ℚ).length ∧
      ∀ (k : ℕ) (hk : k < ([1, 2] : List ℚ).length)
        (hk2 : k < ([3, 4] : List ℚ).length) (hk3 : k < h.length),
        h.get ⟨k, hk3⟩ =
          (([1, 2] : List ℚ).get ⟨k, hk⟩ + ([3, 4] : List ℚ).get ⟨k, hk2⟩)/2) ∧
    ((stitchSeq seqA seqC).seq_feature = seqA.seq_feature ∧
      (superposeSeq seqA seqC).seq_feature = seqA.seq_feature) :=
  ⟨(seq_feature_average_rule seqA seqB).1 [1, 2] [3, 4] rfl rfl rfl,
   (seq_feature_average_rule seqA seqC).2 (Or.inr rfl)⟩

/-- C8.  When the two databases' `type_to_index` dictionaries differ, both
`stitching` and `superposing` perform no composition and return the first
database unchanged (structural equality), for every method and every draw
of the random oracles; no error is raised (the mismatch is only logged). -/
theorem incompatible_returns_first (db1 db2 : Database)
    (hty : dictEq db1.type2idx db2.type2idx = false) :
    ∀ (method : Option String) (perm : List ℕ) (picks : ℕ → ℕ),
      stitching db1 db2 method perm picks = some db1 ∧
      superposing db1 db2 method perm picks = some db1 :=
  fun method perm picks =>
    ⟨compose_incompatible stitchSeq db1 db2 method perm picks hty,
     compose_incompatible superposeSeq db1 db2 method perm picks hty⟩

/-- C8 witness at a concrete incompatible pair. -/
theorem incompatible_returns_first_witness :
    stitching dbA dbDiff (some "feature") [0] (fun _ => 0) = some dbA ∧
    superposing dbA dbDiff none [0] (fun _ => 0) = some dbA :=
  ⟨(incompatible_returns_first dbA dbDiff (by decide)
      (some "feature") [0] (fun _ => 0)).1,
   (incompatible_returns_first dbA dbDiff (by decide)
      none [0] (fun _ => 0)).2⟩

/-- C9.  In random mode both operators consume one permutation of the
second database's indices, shared across all targets (the embedding takes
a single permutation parameter per call, modelling the single
`np.random.permutation` draw): target `i` is paired with the sequence at
position `perm[i % |B|]`, cyclically exhausting the permutation. -/
theorem random_mode_pairing (db1 db2 : Database) (method : Option String)
    (perm : List ℕ) (picks : ℕ → ℕ)
    (hty : dictEq db1.type2idx db2.type2idx = true)
    (hmeth : method = none ∨ method = some "random")
    (hm : db2.sequences.length ≠ 0)
    (hlen : perm.length = db2.sequences.length)
    (hval : ∀ x ∈ perm, x < db2.sequences.length) :
    ∃ out1 out2,
      stitching db1 db2 method perm picks = some out1 ∧
      superposing db1 db2 method perm picks = some out2 ∧
      ∀ (i : ℕ) (si : EventSeq), db1.sequences[i]? = some si →
        ∃ pj sj, perm[i % db2.sequences.length]? = some pj ∧
          db2.sequences[pj]? = some sj ∧
          out1.sequences[i]? = some (stitchSeq si sj) ∧
          out2.sequences[i]? = some (superposeSeq si sj) := by
  obtain ⟨out1, hout1, _, _, _, _, _, _, hper1⟩ :=
    composeRandom_spec stitchSeq db1 db2 method perm picks hty hmeth hm
      hlen hval
  obtain ⟨out2, hout2, _, _, _, _, _, _, hper2⟩ :=
    composeRandom_spec superposeSeq db1 db2 method perm picks hty hmeth hm
      hlen hval
  refine ⟨out1, out2, hout1, hout2, ?_⟩
  intro i si hsi
  obtain ⟨pj, sj, hpj, hsj, ho1⟩ := hper1 i si hsi
  obtain ⟨pj2, sj2, hpj2, hsj2, ho2⟩ := hper2 i si hsi
  have hpeq : pj2 = pj := by
    have := hpj.symm.trans hpj2
    exact (Option.some.inj this).symm
  rw [hpeq] at hsj2
  have hseq2 : sj2 = sj := by
    have := hsj.symm.trans hsj2
    exact (Option.some.inj this).symm
  rw [hseq2] at ho2
  exact ⟨pj, sj, hpj, hsj, ho1, ho2⟩

/-- C9 witness at a concrete compatible pair with the identity
permutation. -/
theorem random_mode_pairing_witness :
    ∃ out1 out2,
      stitching dbA dbB (some "random") [0] (fun _ => 0) = some out1 ∧
      superposing dbA dbB (some "random") [0] (fun _ => 0) = some out2 ∧
      ∃ pj sj, ([0] : List ℕ)[0 % dbB.sequences.length]? = some pj ∧
        dbB.sequences[pj]? = some sj ∧
        out1.sequences[0]? = some (stitchSeq seqA sj) ∧
        out2.sequences[0]? = some (superposeSeq seqA sj) := by
  obtain ⟨out1, out2, hout1, hout2, hper⟩ :=
    random_mode_pairing dbA dbB (some "random") [0] (fun _ => 0)
      (by decide) (Or.inr rfl) (by decide) (by decide) (by decide)
  exact ⟨out1, out2, hout1, hout2, hper 0 seqA rfl⟩

/-- C10.  For compatible databases with a nonempty first operand and an
empty second operand, random mode does not degrade to returning the first
database: `i % len(B.sequences)` divides by zero and the error branch is
reached, so both operators fail (`none`) instead of yielding a database. -/
theorem random_mode_emptyB_fails (db1 db2 : Database) (method : Option String)
    (perm : List ℕ) (picks : ℕ → ℕ)
    (hty : dictEq db1.type2idx db2.type2idx = true)
    (hmeth : method = none ∨ method = some "random")
    (hm : db2.sequences.length = 0) (hA : db1.sequences ≠ []) :
    stitching db1 db2 method perm picks = none ∧
    superposing db1 db2 method perm picks = none :=
  ⟨composeRandom_emptyB stitchSeq db1 db2 method perm picks hty hmeth hm hA,
   composeRandom_emptyB superposeSeq db1 db2 method perm picks hty hmeth hm hA⟩

/-- C10 witness: the failure at a concrete nonempty/empty compatible pair. -/
theorem random_mode_emptyB_fails_witness :
    stitching dbA dbBempty (some "random") [] (fun _ => 0) = none ∧
    superposing dbA dbBempty (some "random") [] (fun _ => 0) = none :=
  random_mode_emptyB_fails dbA dbBempty (some "random") [] (fun _ => 0)
    (by decide) (Or.inr rfl) (by decide) (by decide)

unseal Rat.mul Rat.inv Rat.add Rat.sub in
/-- C1 counterexample.  On the worked example (window `[0, 10]`, `dt = 5`,
events at `[1, 4, 6, 9]` with types `[0, 1, 0, 1]`) the code produces the
count matrix `[[1, 0], [1, 1], [0, 1]]` — the event at time 4 lands in bin
`round(4/5) = 1`, not bin 0, and the event at time 9 lands in bin
`round(9/5) = 2` — so the claimed matrix (`bin 0 = [1, 1]`, `bin 2 =
[0, 0]`) is refuted. -/
theorem aggregating_example_claim_refuted :
    (aggregating exDb 5).map (fun o => o.sequences.map (fun a => a.events)) =
      some [[[1, 0], [1, 1], [0, 1]]] ∧
    (aggregating exDb 5).map (fun o => o.sequences.map (fun a => a.events)) ≠
      some [[[1, 1], [1, 1], [0, 0]]] := by
  exact ⟨by decide, by decide⟩

unseal Rat.mul Rat.inv Rat.add Rat.sub in
/-- C1 (amended).  On the worked example the code yields 3 bins with
bin-end timestamps `[5, 10, 15]`; bin 0 counts one type-0 event (time 1),
bin 1 counts one event of each type (times 4 and 6), and bin 2 counts one
type-1 event (time 9). -/
theorem aggregating_example_amended :
    (aggregating exDb 5).map (fun o => o.sequences.map (fun a => a.times)) =
      some [[5, 10, 15]] ∧
    (aggregating exDb 5).map (fun o => o.sequences.map (fun a => a.events)) =
      some [[[1, 0], [1, 1], [0, 1]]] := by
  exact ⟨by decide, by decide⟩

unseal Rat.mul Rat.inv Rat.add Rat.sub in
/-- C2 witness at the concrete example database with `dt = 5`. -/
theorem aggregating_bins_and_counts_witness :
    ∃ out, aggregating exDb 5 = some out ∧
      out.sequences.length = exDb.sequences.length := by
  obtain ⟨out, h1, h2, _⟩ :=
    aggregating_bins_and_counts exDb 5 (by decide) (by decide)
  exact ⟨out, h1, h2⟩
